import Mathlib

/-
Verification development for the multi-threaded p2p connection server
(src/p2p/multi_thread_server.rs) and the prompt command dispatcher
(xelis_common/src/prompt/command.rs).

The Rust code is shallowly embedded: the three HashMaps and the mpsc
channels of MultiThreadServer become explicit fields of a ServerState
record, each facade operation becomes a pure function from states to an
Outcome (ok / typed error / fatal panic), and the worker-pool transitions
become a step relation used to define reachable states.  HashMaps are
modelled as association lists whose insert replaces the previous binding
(HashMap iteration order is unspecified in Rust; the model fixes one
canonical order, which no verified property depends on).  Locks always
succeed in this sequential embedding (the poisoned-mutex branches of the
source are unreachable), and a send on an mpsc channel whose receiving
half lives in the state always succeeds.
-/

/- ### Association lists (model of std::collections::HashMap) -/

def lookupA {κ α : Type} [DecidableEq κ] (k : κ) : List (κ × α) → Option α
  | [] => none
  | p :: l => if p.1 = k then some p.2 else lookupA k l

def removeA {κ α : Type} [DecidableEq κ] (k : κ) : List (κ × α) → List (κ × α)
  | [] => []
  | p :: l => if p.1 = k then removeA k l else p :: removeA k l

/- HashMap::insert replaces any previous binding of the key. -/
def insertA {κ α : Type} [DecidableEq κ] (k : κ) (v : α) (l : List (κ × α)) : List (κ × α) :=
  removeA k l ++ [(k, v)]

theorem lookupA_removeA_self {κ α : Type} [DecidableEq κ] (k : κ) (l : List (κ × α)) :
    lookupA k (removeA k l) = none := by
  induction l with
  | nil => rfl
  | cons p l ih =>
    by_cases h : p.1 = k
    · simp [removeA, h, ih]
    · simp [removeA, lookupA, h, ih]

theorem lookupA_removeA_ne {κ α : Type} [DecidableEq κ] {k k2 : κ} (l : List (κ × α))
    (h : k ≠ k2) : lookupA k (removeA k2 l) = lookupA k l := by
  induction l with
  | nil => rfl
  | cons p l ih =>
    by_cases hp : p.1 = k2
    · have h2 : k2 ≠ k := Ne.symm h
      simp [removeA, lookupA, hp, h2, ih]
    · simp [removeA, lookupA, hp, ih]

theorem lookupA_append {κ α : Type} [DecidableEq κ] (k : κ) (l1 l2 : List (κ × α)) :
    lookupA k (l1 ++ l2) =
      (match lookupA k l1 with
       | some v => some v
       | none => lookupA k l2) := by
  induction l1 with
  | nil => simp [lookupA]
  | cons p l ih =>
    by_cases hp : p.1 = k
    · simp [lookupA, hp]
    · simp [lookupA, hp, ih]

theorem lookupA_insertA {κ α : Type} [DecidableEq κ] (k k2 : κ) (v : α) (l : List (κ × α)) :
    lookupA k (insertA k2 v l) = if k = k2 then some v else lookupA k l := by
  by_cases h : k = k2
  · subst h
    simp [insertA, lookupA_append, lookupA_removeA_self, lookupA]
  · simp only [insertA, lookupA_append, lookupA_removeA_ne l h, if_neg h]
    cases hl : lookupA k l with
    | some v2 => rfl
    | none => simp [lookupA, Ne.symm h]

theorem mem_removeA {κ α : Type} [DecidableEq κ] {k : κ} {p : κ × α} {l : List (κ × α)}
    (h : p ∈ removeA k l) : p ∈ l ∧ p.1 ≠ k := by
  induction l with
  | nil => cases h
  | cons q l ih =>
    by_cases hq : q.1 = k
    · simp only [removeA, if_pos hq] at h
      exact ⟨List.mem_cons_of_mem _ (ih h).1, (ih h).2⟩
    · simp only [removeA, if_neg hq, List.mem_cons] at h
      rcases h with h | h
      · subst h; exact ⟨List.mem_cons_self _ _, hq⟩
      · exact ⟨List.mem_cons_of_mem _ (ih h).1, (ih h).2⟩

theorem keys_removeA_nodup {κ α : Type} [DecidableEq κ] (k : κ) {l : List (κ × α)}
    (h : (l.map Prod.fst).Nodup) : ((removeA k l).map Prod.fst).Nodup := by
  induction l with
  | nil => simp [removeA]
  | cons p l ih =>
    simp only [List.map_cons, List.nodup_cons] at h
    by_cases hp : p.1 = k
    · simp only [removeA, if_pos hp]
      exact ih h.2
    · simp only [removeA, if_neg hp, List.map_cons, List.nodup_cons]
      refine ⟨fun hm => ?_, ih h.2⟩
      rcases List.mem_map.mp hm with ⟨q, hq, hfst⟩
      exact h.1 (List.mem_map.mpr ⟨q, (mem_removeA hq).1, hfst⟩)

theorem keys_insertA_nodup {κ α : Type} [DecidableEq κ] (k : κ) (v : α) {l : List (κ × α)}
    (h : (l.map Prod.fst).Nodup) : ((insertA k v l).map Prod.fst).Nodup := by
  simp only [insertA, List.map_append, List.map_cons, List.map_nil]
  rw [List.nodup_append]
  refine ⟨keys_removeA_nodup k h, List.nodup_singleton _, ?_⟩
  intro x hx
  rcases List.mem_map.mp hx with ⟨q, hq, hfst⟩
  simp only [List.mem_singleton]
  intro hxk
  exact (mem_removeA hq).2 (hfst.trans hxk)

theorem mem_insertA {κ α : Type} [DecidableEq κ] {k : κ} {v : α} {p : κ × α} {l : List (κ × α)}
    (h : p ∈ insertA k v l) : p = (k, v) ∨ (p ∈ l ∧ p.1 ≠ k) := by
  simp only [insertA, List.mem_append, List.mem_singleton] at h
  rcases h with h | h
  · exact Or.inr (mem_removeA h)
  · exact Or.inl h

theorem removeA_of_lookupA_none {κ α : Type} [DecidableEq κ] {k : κ} {l : List (κ × α)}
    (h : lookupA k l = none) : removeA k l = l := by
  induction l with
  | nil => rfl
  | cons p l ih =>
    by_cases hp : p.1 = k
    · simp [lookupA, hp] at h
    · simp only [lookupA, if_neg hp] at h
      simp [removeA, hp, ih h]

theorem length_removeA_le {κ α : Type} [DecidableEq κ] (k : κ) (l : List (κ × α)) :
    (removeA k l).length ≤ l.length := by
  induction l with
  | nil => simp [removeA]
  | cons p l ih =>
    by_cases hp : p.1 = k
    · simp only [removeA, if_pos hp, List.length_cons]
      omega
    · simp only [removeA, if_neg hp, List.length_cons]
      omega

theorem length_insertA_of_none {κ α : Type} [DecidableEq κ] {k : κ} (v : α) {l : List (κ × α)}
    (h : lookupA k l = none) : (insertA k v l).length = l.length + 1 := by
  simp [insertA, removeA_of_lookupA_none h]

theorem lookupA_mem {κ α : Type} [DecidableEq κ] {k : κ} {v : α} {l : List (κ × α)}
    (h : lookupA k l = some v) : (k, v) ∈ l := by
  induction l with
  | nil => cases h
  | cons p l ih =>
    by_cases hp : p.1 = k
    · simp only [lookupA, if_pos hp, Option.some.injEq] at h
      subst h
      have : p = (k, p.2) := by
        cases p; simp at hp; simp [hp]
      rw [← this]
      exact List.mem_cons_self _ _
    · simp only [lookupA, if_neg hp] at h
      exact List.mem_cons_of_mem _ (ih h)

theorem removeA_cons_head {κ α : Type} [DecidableEq κ] (k : κ) (v : α) (l : List (κ × α))
    (h : lookupA k l = none) : removeA k ((k, v) :: l) = l := by
  simp [removeA, removeA_of_lookupA_none h]

/- ### Data model of MultiThreadServer -/

/-
Connection is an external collaborator (src/p2p/connection.rs is not part of
the reviewed core): the embedding keeps only what the server consumes —
peer id, peer address, the monotonic closed flag, and whether the transport
close operation would succeed (close may fail with a transport-level error;
close_ok records the environment's answer for this connection).
-/
structure Connection where
  peer_id : Nat
  peer_address : Nat
  closed : Bool
  close_ok : Bool
deriving DecidableEq

/- Per-worker control messages (enum Message). -/
inductive Message where
  | SendBytes (bytes : List Nat)
  | Exit
deriving DecidableEq

/- Dispatch-queue events (enum ThreadMessage). -/
inductive ThreadMessage where
  | Listen (c : Connection)
  | Stop
deriving DecidableEq

/-
P2pError variants used by multi_thread_server.rs (their display strings are
carried verbatim where the source formats them from fixed parts; the
substrings produced by external Display impls are fixed in the model).
-/
inductive P2pError where
  | OnLock (msg : String)
  | PeerNotFound (id : Nat)
  | OnChannelMessage (id : Nat) (msg : String)
  | OnConnectionClose (msg : String)
deriving DecidableEq

/-
The state of a MultiThreadServer: its immutable construction parameters and
the four independently-guarded shared structures.
  connections     = Registry            (Mutex<HashMap<u64, Arc<Connection>>>)
  thread_channels = WorkerChannelTable  (Mutex<HashMap<usize, Sender<Message>>>),
                    each inbox is the FIFO list of undelivered messages
  channels        = WorkerAssignment    (Mutex<HashMap<u64, usize>>)
  queue           = DispatchQueue       (the mpsc channel behind sender/receiver),
                    the FIFO list of undelivered ThreadMessages
-/
structure ServerState where
  peer_id : Nat
  tag : Option String
  max_peers : Nat
  bind_address : String
  connections : List (Nat × Connection)
  thread_channels : List (Nat × List Message)
  channels : List (Nat × Nat)
  queue : List ThreadMessage
deriving DecidableEq

/-
Result of one facade operation: a value plus the post-state, a typed
P2pError plus the post-state (err still records mutations made before the
early return), or a panic (fatal: the process dies, no post-state).
-/
inductive Outcome (α : Type) where
  | ok (a : α) (s : ServerState)
  | err (e : P2pError) (s : ServerState)
  | fatal (msg : String)
deriving DecidableEq

/- fn new: empty maps and a fresh empty channel. -/
def ServerState.new (peer_id : Nat) (tag : Option String) (max_peers : Nat)
    (bind_address : String) : ServerState :=
  { peer_id := peer_id, tag := tag, max_peers := max_peers, bind_address := bind_address,
    connections := [], thread_channels := [], channels := [], queue := [] }

/- ### Facade operations, translated one-for-one from the source -/

/- fn get_peer_count: self.connections.lock().unwrap().len() -/
def get_peer_count (st : ServerState) : Nat :=
  st.connections.length

/- fn accept_new_connections: self.get_peer_count() < self.max_peers -/
def accept_new_connections (st : ServerState) : Bool :=
  get_peer_count st < st.max_peers

/-
Wrapping 64-bit usize subtraction: the release-profile semantics of
`a - b` on usize (a debug build panics on the underflow branch instead).
-/
def usizeSub (a b : Nat) : Nat :=
  if b ≤ a then a - b else 2 ^ 64 - (b - a)

/- fn get_slots_available: self.max_peers - self.get_peer_count() -/
def get_slots_available (st : ServerState) : Nat :=
  usizeSub st.max_peers (get_peer_count st)

/- fn is_connected_to: self.peer_id == *peer_id || connections.contains_key(peer_id) -/
def is_connected_to (st : ServerState) (pid : Nat) : Except P2pError Bool :=
  Except.ok (decide (st.peer_id = pid) || (lookupA pid st.connections).isSome)

/- fn is_multi_threaded -/
def is_multi_threaded (_st : ServerState) : Bool :=
  true

/- fn get_connection -/
def get_connection (st : ServerState) (pid : Nat) : Except P2pError Connection :=
  match lookupA pid st.connections with
  | some connection => Except.ok connection
  | none => Except.error (P2pError.PeerNotFound pid)

/- fn get_connections: snapshot of the registry values -/
def get_connections (st : ServerState) : List Connection :=
  st.connections.map (fun p => p.2)

/- fn is_connected_to_addr: linear scan over get_connections -/
def is_connected_to_addr (st : ServerState) (addr : Nat) : Except P2pError Bool :=
  Except.ok ((get_connections st).any (fun c => c.peer_address = addr))

/- fn get_connections_id: the peer id of every registry value -/
def get_connections_id (st : ServerState) : List Nat :=
  st.connections.map (fun p => p.2.peer_id)

/-
fn add_connection: insert into the registry, panicking if a previous
binding existed (the commented-out PeerIdAlreadyUsed branch is dead code),
else push Listen(connection) onto the dispatch queue.  The send succeeds
because the receiving half of the channel lives in the state.
-/
def add_connection (st : ServerState) (connection : Connection) : Outcome Unit :=
  match lookupA connection.peer_id st.connections with
  | some _ => Outcome.fatal ("Connection " ++ Nat.repr connection.peer_id ++ " already exists!")
  | none =>
      Outcome.ok () { st with
        connections := insertA connection.peer_id connection st.connections,
        queue := st.queue ++ [ThreadMessage.Listen connection] }

/-
fn remove_connection: remove from the registry; if the connection is not
yet closed, close it, returning OnConnectionClose on failure (the registry
entry stays removed — the guard temporary was already mutated); then remove
the WorkerAssignment entry, panicking if there is none, and push Exit onto
the owning worker's inbox, panicking if that worker has no registered inbox.
A successful close flips the connection's closed flag, but the handle is no
longer referenced by the state, so the flip is not tracked.
-/
def remove_connection (st : ServerState) (pid : Nat) : Outcome Unit :=
  match lookupA pid st.connections with
  | none => Outcome.err (P2pError.PeerNotFound pid) st
  | some connection =>
      if !connection.closed && !connection.close_ok then
        Outcome.err
          (P2pError.OnConnectionClose ("trying to remove " ++ Nat.repr pid ++ ": close failed"))
          { st with connections := removeA pid st.connections }
      else
        match lookupA pid st.channels with
        | none => Outcome.fatal "No channel found for a connection found!"
        | some thread_id =>
            match lookupA thread_id st.thread_channels with
            | none => Outcome.fatal ("No thread found for id " ++ Nat.repr thread_id)
            | some inbox =>
                Outcome.ok () { st with
                  connections := removeA pid st.connections,
                  channels := removeA pid st.channels,
                  thread_channels :=
                    insertA thread_id (inbox ++ [Message.Exit]) st.thread_channels }

/-
fn send_to_peer: resolve the peer through WorkerAssignment only; missing
assignment is PeerNotFound, a recorded worker without an inbox is a panic,
otherwise push SendBytes(bytes) onto that worker's inbox.
-/
def send_to_peer (st : ServerState) (pid : Nat) (bytes : List Nat) : Outcome Unit :=
  match lookupA pid st.channels with
  | none => Outcome.err (P2pError.PeerNotFound pid) st
  | some thread_id =>
      match lookupA thread_id st.thread_channels with
      | none => Outcome.fatal ("No thread found for id " ++ Nat.repr thread_id)
      | some inbox =>
          Outcome.ok () { st with
            thread_channels :=
              insertA thread_id (inbox ++ [Message.SendBytes bytes]) st.thread_channels }

/-
fn stop, first half: the loop calling remove_connection on every snapshotted
peer id, logging (and otherwise discarding) typed errors; a panic inside a
removal aborts stop itself, yielding no post-state.
-/
def removeAll (st : ServerState) : List Nat → Option ServerState
  | [] => some st
  | pid :: rest =>
      match remove_connection st pid with
      | Outcome.ok _ st' => removeAll st' rest
      | Outcome.err _ st' => removeAll st' rest
      | Outcome.fatal _ => none

/-
fn stop: remove every snapshotted connection best-effort, then push
max_peers Stop events onto the dispatch queue, one per worker.
-/
def stop (st : ServerState) : Option ServerState :=
  match removeAll st (get_connections_id st) with
  | none => none
  | some st' =>
      some { st' with queue := st'.queue ++ List.replicate st'.max_peers ThreadMessage.Stop }

/- ### Guard-acquisition traces of the facade operations -/

/-
The four independently-guarded shared structures of §5.  Each operation's
trace lists its guard acquisitions and releases in program order, following
Rust guard lifetimes: a guard bound in a match arm lives to the end of that
arm, and a guard temporary in a match scrutinee lives to the end of the
whole match.  dispatch stands for the Mutex around the channel endpoints
(sender in the facade operations).
-/
inductive Guard where
  | registry
  | assignment
  | channelTable
  | dispatch
deriving DecidableEq

inductive LockEvent where
  | acq (g : Guard)
  | rel (g : Guard)
deriving DecidableEq

/-
add_connection: the connections guard is bound by the outer match arm and
is still held when sender.lock() is taken inside the None branch; on a
duplicate the panic fires while the connections guard is held.
-/
def add_connection_locks (st : ServerState) (connection : Connection) : List LockEvent :=
  match lookupA connection.peer_id st.connections with
  | some _ => [LockEvent.acq Guard.registry]
  | none =>
      [LockEvent.acq Guard.registry, LockEvent.acq Guard.dispatch,
       LockEvent.rel Guard.dispatch, LockEvent.rel Guard.registry]

/-
remove_connection: self.connections.lock() is a match-scrutinee temporary,
so the registry guard is held for the entire function body; channels and
thread_channels are locked nested inside it.  Panic branches end while
still holding every acquired guard.
-/
def remove_connection_locks (st : ServerState) (pid : Nat) : List LockEvent :=
  match lookupA pid st.connections with
  | none => [LockEvent.acq Guard.registry, LockEvent.rel Guard.registry]
  | some connection =>
      if !connection.closed && !connection.close_ok then
        [LockEvent.acq Guard.registry, LockEvent.rel Guard.registry]
      else
        match lookupA pid st.channels with
        | none => [LockEvent.acq Guard.registry, LockEvent.acq Guard.assignment]
        | some thread_id =>
            match lookupA thread_id st.thread_channels with
            | none =>
                [LockEvent.acq Guard.registry, LockEvent.acq Guard.assignment,
                 LockEvent.acq Guard.channelTable]
            | some _ =>
                [LockEvent.acq Guard.registry, LockEvent.acq Guard.assignment,
                 LockEvent.acq Guard.channelTable, LockEvent.rel Guard.channelTable,
                 LockEvent.rel Guard.assignment, LockEvent.rel Guard.registry]

/-
send_to_peer: the channels guard is bound by the outer match arm and is
still held while thread_channels.lock() is taken in the Some branch.
-/
def send_to_peer_locks (st : ServerState) (pid : Nat) : List LockEvent :=
  match lookupA pid st.channels with
  | none => [LockEvent.acq Guard.assignment, LockEvent.rel Guard.assignment]
  | some thread_id =>
      match lookupA thread_id st.thread_channels with
      | none => [LockEvent.acq Guard.assignment, LockEvent.acq Guard.channelTable]
      | some _ =>
          [LockEvent.acq Guard.assignment, LockEvent.acq Guard.channelTable,
           LockEvent.rel Guard.channelTable, LockEvent.rel Guard.assignment]

/- Each read-only query takes and releases the registry guard once. -/
def query_locks : List LockEvent :=
  [LockEvent.acq Guard.registry, LockEvent.rel Guard.registry]

/- stop, first half: the guard events of the best-effort removal loop. -/
def removeAll_locks (st : ServerState) : List Nat → List LockEvent
  | [] => []
  | pid :: rest =>
      remove_connection_locks st pid ++
        (match remove_connection st pid with
         | Outcome.ok _ st' => removeAll_locks st' rest
         | Outcome.err _ st' => removeAll_locks st' rest
         | Outcome.fatal _ => [])

/-
stop: get_connections_id takes the registry guard, then each removal runs
its own guards, then the sender guard is taken for the Stop loop (skipped
when a removal panicked).
-/
def stop_locks (st : ServerState) : List LockEvent :=
  query_locks ++ removeAll_locks st (get_connections_id st) ++
    (match removeAll st (get_connections_id st) with
     | none => []
     | some _ => [LockEvent.acq Guard.dispatch, LockEvent.rel Guard.dispatch])

/- The set of guards held after a trace, starting from held. -/
def heldAfter (held : List Guard) : List LockEvent → List Guard
  | [] => held
  | LockEvent.acq g :: es => heldAfter (g :: held) es
  | LockEvent.rel g :: es => heldAfter (held.erase g) es

/- Largest number of simultaneously held guards along a trace. -/
def maxHeldAux (held : List Guard) : List LockEvent → Nat
  | [] => held.length
  | LockEvent.acq g :: es => max (held.length + 1) (maxHeldAux (g :: held) es)
  | LockEvent.rel g :: es => maxHeldAux (held.erase g) es

def maxHeld (tr : List LockEvent) : Nat :=
  maxHeldAux [] tr

/- A fixed ordering of the four guards. -/
def guardRank : Guard → Nat
  | Guard.registry => 0
  | Guard.assignment => 1
  | Guard.channelTable => 2
  | Guard.dispatch => 3

/-
A trace is ordered when every acquisition outranks every guard already
held — the classical no-deadlock discipline for nested locking.
-/
def orderedAux (held : List Guard) : List LockEvent → Bool
  | [] => true
  | LockEvent.acq g :: es =>
      held.all (fun h => guardRank h < guardRank g) && orderedAux (g :: held) es
  | LockEvent.rel g :: es => orderedAux (held.erase g) es

def orderedTrace (tr : List LockEvent) : Bool :=
  orderedAux [] tr

theorem heldAfter_append (held : List Guard) (t1 t2 : List LockEvent) :
    heldAfter held (t1 ++ t2) = heldAfter (heldAfter held t1) t2 := by
  induction t1 generalizing held with
  | nil => rfl
  | cons e es ih =>
    cases e with
    | acq g => simp [heldAfter, ih]
    | rel g => simp [heldAfter, ih]

theorem orderedAux_append (held : List Guard) (t1 t2 : List LockEvent) :
    orderedAux held (t1 ++ t2) =
      (orderedAux held t1 && orderedAux (heldAfter held t1) t2) := by
  induction t1 generalizing held with
  | nil => simp [orderedAux, heldAfter]
  | cons e es ih =>
    cases e with
    | acq g =>
      simp only [List.cons_append, orderedAux, heldAfter, List.append_eq, ih, Bool.and_assoc]
    | rel g =>
      simp only [List.cons_append, orderedAux, heldAfter, List.append_eq, ih]

theorem maxHeldAux_append_le (held : List Guard) (t1 t2 : List LockEvent) :
    maxHeldAux held (t1 ++ t2) ≤
      max (maxHeldAux held t1) (maxHeldAux (heldAfter held t1) t2) := by
  induction t1 generalizing held with
  | nil =>
    simp only [List.nil_append, maxHeldAux, heldAfter]
    exact le_max_right _ _
  | cons e es ih =>
    cases e with
    | acq g =>
      simp only [List.cons_append, maxHeldAux, heldAfter, List.append_eq]
      have h := ih (g :: held)
      simp only [List.append_eq] at h
      omega
    | rel g =>
      simp only [List.cons_append, maxHeldAux, heldAfter, List.append_eq]
      exact ih _

/- ### Outcome shape lemmas for the facade operations -/

theorem add_connection_post_ok {st st' : ServerState} {c : Connection}
    (h : add_connection st c = Outcome.ok () st') :
    lookupA c.peer_id st.connections = none ∧
      st' = { st with
        connections := insertA c.peer_id c st.connections,
        queue := st.queue ++ [ThreadMessage.Listen c] } := by
  unfold add_connection at h
  cases hc : lookupA c.peer_id st.connections with
  | some old => rw [hc] at h; cases h
  | none =>
    rw [hc] at h
    cases h
    exact ⟨rfl, rfl⟩

theorem remove_connection_post_ok {st st' : ServerState} {pid : Nat}
    (h : remove_connection st pid = Outcome.ok () st') :
    ∃ connection thread_id inbox,
      lookupA pid st.connections = some connection ∧
      lookupA pid st.channels = some thread_id ∧
      lookupA thread_id st.thread_channels = some inbox ∧
      st' = { st with
        connections := removeA pid st.connections,
        channels := removeA pid st.channels,
        thread_channels := insertA thread_id (inbox ++ [Message.Exit]) st.thread_channels } := by
  unfold remove_connection at h
  split at h
  · cases h
  · next connection hc =>
    split at h
    · cases h
    · split at h
      · cases h
      · next thread_id ha =>
        split at h
        · cases h
        · next inbox ht =>
          cases h
          exact ⟨connection, thread_id, inbox, hc, ha, ht, rfl⟩

theorem remove_connection_post_err {st st' : ServerState} {pid : Nat} {e : P2pError}
    (h : remove_connection st pid = Outcome.err e st') :
    (e = P2pError.PeerNotFound pid ∧ st' = st ∧ lookupA pid st.connections = none) ∨
    (∃ connection,
      lookupA pid st.connections = some connection ∧
      connection.closed = false ∧ connection.close_ok = false ∧
      e = P2pError.OnConnectionClose ("trying to remove " ++ Nat.repr pid ++ ": close failed") ∧
      st' = { st with connections := removeA pid st.connections }) := by
  unfold remove_connection at h
  split at h
  · next hc =>
    cases h
    exact Or.inl ⟨rfl, rfl, hc⟩
  · next connection hc =>
    split at h
    · next hcl =>
      cases h
      simp only [Bool.and_eq_true, Bool.not_eq_true'] at hcl
      exact Or.inr ⟨connection, hc, hcl.1, hcl.2, rfl, rfl⟩
    · split at h
      · cases h
      · split at h
        · cases h
        · cases h

theorem send_to_peer_post_ok {st st' : ServerState} {pid : Nat} {bytes : List Nat}
    (h : send_to_peer st pid bytes = Outcome.ok () st') :
    ∃ thread_id inbox,
      lookupA pid st.channels = some thread_id ∧
      lookupA thread_id st.thread_channels = some inbox ∧
      st' = { st with
        thread_channels :=
          insertA thread_id (inbox ++ [Message.SendBytes bytes]) st.thread_channels } := by
  unfold send_to_peer at h
  split at h
  · cases h
  · next thread_id ha =>
    split at h
    · cases h
    · next inbox ht =>
      cases h
      exact ⟨thread_id, inbox, ha, ht, rfl⟩

theorem removeAll_post {pids : List Nat} : ∀ {st st' : ServerState},
    removeAll st pids = some st' →
    st'.connections.length ≤ st.connections.length ∧
    st'.max_peers = st.max_peers ∧ st'.peer_id = st.peer_id ∧ st'.queue = st.queue := by
  induction pids with
  | nil =>
    intro st st' h
    cases h
    exact ⟨le_refl _, rfl, rfl, rfl⟩
  | cons pid rest ih =>
    intro st st' h
    unfold removeAll at h
    cases hr : remove_connection st pid with
    | ok u st1 =>
      cases u
      rw [hr] at h
      rcases remove_connection_post_ok hr with ⟨connection, thread_id, inbox, _, _, _, hst1⟩
      rcases ih h with ⟨h1, h2, h3, h4⟩
      subst hst1
      exact ⟨le_trans h1 (length_removeA_le _ _), h2, h3, h4⟩
    | err e st1 =>
      rw [hr] at h
      rcases remove_connection_post_err hr with ⟨_, hst1, _⟩ | ⟨connection, _, _, _, _, hst1⟩
      · rcases ih h with ⟨h1, h2, h3, h4⟩
        subst hst1
        exact ⟨h1, h2, h3, h4⟩
      · rcases ih h with ⟨h1, h2, h3, h4⟩
        subst hst1
        exact ⟨le_trans h1 (length_removeA_le _ _), h2, h3, h4⟩
    | fatal m => rw [hr] at h; cases h

theorem stop_post {st st' : ServerState} (h : stop st = some st') :
    st'.connections.length ≤ st.connections.length ∧
    st'.max_peers = st.max_peers ∧ st'.peer_id = st.peer_id ∧
    ∃ q1, st'.queue = q1 ++ List.replicate st.max_peers ThreadMessage.Stop := by
  unfold stop at h
  cases hr : removeAll st (get_connections_id st) with
  | none => rw [hr] at h; cases h
  | some st1 =>
    rw [hr] at h
    cases h
    rcases removeAll_post hr with ⟨h1, h2, h3, h4⟩
    exact ⟨h1, h2, h3, st1.queue, by rw [h2]⟩

/- ### Worker-pool transitions and reachable states -/

/-
One transition of the system other than a facade add_connection: a facade
removal (successful or returning a typed error), a facade send, a facade
stop, or one of the worker-loop actions of fn start — a worker registering
its private inbox before first waiting on the dispatch queue, an idle
worker claiming the Listen event at the head of the dispatch queue and
recording itself in WorkerAssignment, an idle worker consuming a Stop
event, and a servicing worker draining the head of its own inbox.
-/
inductive BaseStep : ServerState → ServerState → Prop where
  | removeOk {st st' : ServerState} (pid : Nat) :
      remove_connection st pid = Outcome.ok () st' → BaseStep st st'
  | removeErr {st st' : ServerState} (pid : Nat) (e : P2pError) :
      remove_connection st pid = Outcome.err e st' → BaseStep st st'
  | send {st st' : ServerState} (pid : Nat) (bytes : List Nat) :
      send_to_peer st pid bytes = Outcome.ok () st' → BaseStep st st'
  | stopOk {st st' : ServerState} :
      stop st = some st' → BaseStep st st'
  | register {st : ServerState} (wid : Nat) :
      wid < st.max_peers → lookupA wid st.thread_channels = none →
      BaseStep st { st with thread_channels := insertA wid [] st.thread_channels }
  | claim {st : ServerState} (wid : Nat) (c : Connection) (rest : List ThreadMessage) :
      st.queue = ThreadMessage.Listen c :: rest →
      (lookupA wid st.thread_channels).isSome →
      BaseStep st { st with channels := insertA c.peer_id wid st.channels, queue := rest }
  | claimStop {st : ServerState} (rest : List ThreadMessage) :
      st.queue = ThreadMessage.Stop :: rest →
      BaseStep st { st with queue := rest }
  | drain {st : ServerState} (wid : Nat) (m : Message) (rest : List Message) :
      lookupA wid st.thread_channels = some (m :: rest) →
      BaseStep st { st with thread_channels := insertA wid rest st.thread_channels }

/- States reachable from construction by any interleaving of transitions. -/
inductive Reachable : ServerState → Prop where
  | init (pid : Nat) (tag : Option String) (mp : Nat) (addr : String) :
      Reachable (ServerState.new pid tag mp addr)
  | base {st st' : ServerState} : Reachable st → BaseStep st st' → Reachable st'
  | add {st st' : ServerState} (c : Connection) : Reachable st →
      add_connection st c = Outcome.ok () st' → Reachable st'

/-
Guarded reachability: the same transitions, except that add_connection is
only invoked in states where accept_new_connections() holds — the
admission discipline of the listener loop.
-/
inductive GReach : ServerState → Prop where
  | init (pid : Nat) (tag : Option String) (mp : Nat) (addr : String) :
      GReach (ServerState.new pid tag mp addr)
  | base {st st' : ServerState} : GReach st → BaseStep st st' → GReach st'
  | add {st st' : ServerState} (c : Connection) : GReach st →
      accept_new_connections st = true →
      add_connection st c = Outcome.ok () st' → GReach st'

/-
Structural invariant of reachable states: registry keys are unique, every
registry value is stored under its own peer id, and every WorkerAssignment
entry names a worker whose inbox is registered in the WorkerChannelTable.
-/
structure WF (st : ServerState) : Prop where
  conn_nodup : (st.connections.map Prod.fst).Nodup
  conn_kv : ∀ p ∈ st.connections, p.2.peer_id = p.1
  assigned_inbox : ∀ p ∈ st.channels, (lookupA p.2 st.thread_channels).isSome

theorem isSome_lookupA_insertA {κ α : Type} [DecidableEq κ] {k : κ} (k2 : κ) (v : α)
    {l : List (κ × α)} (h : (lookupA k l).isSome) :
    (lookupA k (insertA k2 v l)).isSome := by
  rw [lookupA_insertA]
  by_cases hk : k = k2
  · simp [hk]
  · simp only [if_neg hk]
    exact h

theorem wf_add {st st' : ServerState} {c : Connection} (hwf : WF st)
    (h : add_connection st c = Outcome.ok () st') : WF st' := by
  rcases add_connection_post_ok h with ⟨hnone, hst⟩
  subst hst
  refine ⟨keys_insertA_nodup _ _ hwf.conn_nodup, ?_, hwf.assigned_inbox⟩
  intro p hp
  rcases mem_insertA hp with hp | hp
  · subst hp; rfl
  · exact hwf.conn_kv p hp.1

theorem wf_remove_ok {st st' : ServerState} {pid : Nat} (hwf : WF st)
    (h : remove_connection st pid = Outcome.ok () st') : WF st' := by
  rcases remove_connection_post_ok h with ⟨connection, thread_id, inbox, _, _, _, hst⟩
  subst hst
  refine ⟨keys_removeA_nodup _ hwf.conn_nodup, ?_, ?_⟩
  · intro p hp
    exact hwf.conn_kv p (mem_removeA hp).1
  · intro p hp
    exact isSome_lookupA_insertA _ _ (hwf.assigned_inbox p (mem_removeA hp).1)

theorem wf_remove_err {st st' : ServerState} {pid : Nat} {e : P2pError} (hwf : WF st)
    (h : remove_connection st pid = Outcome.err e st') : WF st' := by
  rcases remove_connection_post_err h with ⟨_, hst, _⟩ | ⟨connection, _, _, _, _, hst⟩
  · subst hst; exact hwf
  · subst hst
    refine ⟨keys_removeA_nodup _ hwf.conn_nodup, ?_, hwf.assigned_inbox⟩
    intro p hp
    exact hwf.conn_kv p (mem_removeA hp).1

theorem wf_send {st st' : ServerState} {pid : Nat} {bytes : List Nat} (hwf : WF st)
    (h : send_to_peer st pid bytes = Outcome.ok () st') : WF st' := by
  rcases send_to_peer_post_ok h with ⟨thread_id, inbox, _, _, hst⟩
  subst hst
  refine ⟨hwf.conn_nodup, hwf.conn_kv, ?_⟩
  intro p hp
  exact isSome_lookupA_insertA _ _ (hwf.assigned_inbox p hp)

theorem wf_removeAll {pids : List Nat} : ∀ {st st' : ServerState}, WF st →
    removeAll st pids = some st' → WF st' := by
  induction pids with
  | nil =>
    intro st st' hwf h
    cases h
    exact hwf
  | cons pid rest ih =>
    intro st st' hwf h
    unfold removeAll at h
    cases hr : remove_connection st pid with
    | ok u st1 =>
      cases u
      rw [hr] at h
      exact ih (wf_remove_ok hwf hr) h
    | err e st1 =>
      rw [hr] at h
      exact ih (wf_remove_err hwf hr) h
    | fatal m => rw [hr] at h; cases h

theorem wf_stop {st st' : ServerState} (hwf : WF st) (h : stop st = some st') : WF st' := by
  unfold stop at h
  cases hr : removeAll st (get_connections_id st) with
  | none => rw [hr] at h; cases h
  | some st1 =>
    rw [hr] at h
    cases h
    have h1 := wf_removeAll hwf hr
    exact ⟨h1.conn_nodup, h1.conn_kv, h1.assigned_inbox⟩

theorem wf_base {st st' : ServerState} (hwf : WF st) (h : BaseStep st st') : WF st' := by
  cases h with
  | removeOk pid h => exact wf_remove_ok hwf h
  | removeErr pid e h => exact wf_remove_err hwf h
  | send pid bytes h => exact wf_send hwf h
  | stopOk h => exact wf_stop hwf h
  | register wid hlt hnone =>
    refine ⟨hwf.conn_nodup, hwf.conn_kv, ?_⟩
    intro p hp
    exact isSome_lookupA_insertA _ _ (hwf.assigned_inbox p hp)
  | claim wid c rest hq hreg =>
    refine ⟨hwf.conn_nodup, hwf.conn_kv, ?_⟩
    intro p hp
    rcases mem_insertA hp with hp | hp
    · subst hp; exact hreg
    · exact hwf.assigned_inbox p hp.1
  | claimStop rest hq => exact ⟨hwf.conn_nodup, hwf.conn_kv, hwf.assigned_inbox⟩
  | drain wid m rest hm =>
    refine ⟨hwf.conn_nodup, hwf.conn_kv, ?_⟩
    intro p hp
    exact isSome_lookupA_insertA _ _ (hwf.assigned_inbox p hp)

theorem reachable_wf {st : ServerState} (h : Reachable st) : WF st := by
  induction h with
  | init pid tag mp addr =>
    exact ⟨List.nodup_nil, fun p hp => absurd hp (List.not_mem_nil p), fun p hp => absurd hp (List.not_mem_nil p)⟩
  | base hr hs ih => exact wf_base ih hs
  | add c hr hadd ih => exact wf_add ih hadd

/- ### Connection-count facts -/

theorem base_count {st st' : ServerState} (h : BaseStep st st') :
    st'.connections.length ≤ st.connections.length ∧ st'.max_peers = st.max_peers := by
  cases h with
  | removeOk pid h =>
    rcases remove_connection_post_ok h with ⟨c, tid, inbox, _, _, _, hst⟩
    subst hst
    exact ⟨length_removeA_le _ _, rfl⟩
  | removeErr pid e h =>
    rcases remove_connection_post_err h with ⟨_, hst, _⟩ | ⟨c, _, _, _, _, hst⟩
    · subst hst; exact ⟨le_refl _, rfl⟩
    · subst hst; exact ⟨length_removeA_le _ _, rfl⟩
  | send pid bytes h =>
    rcases send_to_peer_post_ok h with ⟨tid, inbox, _, _, hst⟩
    subst hst
    exact ⟨le_refl _, rfl⟩
  | stopOk h =>
    rcases stop_post h with ⟨h1, h2, _, _⟩
    exact ⟨h1, h2⟩
  | register wid hlt hnone => exact ⟨le_refl _, rfl⟩
  | claim wid c rest hq hreg => exact ⟨le_refl _, rfl⟩
  | claimStop rest hq => exact ⟨le_refl _, rfl⟩
  | drain wid m rest hm => exact ⟨le_refl _, rfl⟩

theorem greach_count {st : ServerState} (h : GReach st) :
    st.connections.length ≤ st.max_peers := by
  induction h with
  | init pid tag mp addr => simp [ServerState.new]
  | base hr hs ih =>
    rcases base_count hs with ⟨h1, h2⟩
    omega
  | add c hr hacc hadd ih =>
    rcases add_connection_post_ok hadd with ⟨hnone, hst⟩
    subst hst
    simp only [length_insertA_of_none c hnone]
    simp only [accept_new_connections, get_peer_count, decide_eq_true_eq] at hacc
    omega

/- ### Concrete example connections and states -/

def exConn1 : Connection := { peer_id := 1, peer_address := 10, closed := false, close_ok := true }

def exConn2 : Connection := { peer_id := 2, peer_address := 11, closed := false, close_ok := true }

/- A connection whose transport close operation reports an error. -/
def exConnBad : Connection := { peer_id := 1, peer_address := 12, closed := false, close_ok := false }

/- A connection carrying the server's own peer id. -/
def exConn7 : Connection := { peer_id := 7, peer_address := 13, closed := false, close_ok := true }

/- A freshly constructed server: own peer id 0, max_peers 1. -/
def baseS : ServerState := ServerState.new 0 none 1 ("a")

/- baseS after worker 0 registered its private inbox. -/
def stReg : ServerState := { baseS with thread_channels := [(0, [])] }

/- stReg after add_connection(exConn1). -/
def stAdd : ServerState :=
  { stReg with connections := [(1, exConn1)], queue := [ThreadMessage.Listen exConn1] }

/- stAdd after worker 0 claimed the Listen event. -/
def stClaim : ServerState := { stAdd with channels := [(1, 0)], queue := [] }

/- stClaim after remove_connection(1) succeeded. -/
def stRemoved : ServerState :=
  { stClaim with connections := [], channels := [], thread_channels := [(0, [Message.Exit])] }

/- stReg after add_connection(exConnBad) and the worker claim. -/
def stBadAdd : ServerState :=
  { stReg with connections := [(1, exConnBad)], queue := [ThreadMessage.Listen exConnBad] }

def stBadClaim : ServerState := { stBadAdd with channels := [(1, 0)], queue := [] }

/- stBadClaim after remove_connection(1) returned the close failure. -/
def stBadRemoved : ServerState := { stBadClaim with connections := [] }

/- stBadRemoved after send_to_peer(1, [42]) succeeded. -/
def c4Post : ServerState :=
  { stBadRemoved with thread_channels := [(0, [Message.SendBytes [42]])] }

/- A server whose own peer id is 7, its worker registered, exConn7 added and claimed. -/
def ownS : ServerState := ServerState.new 7 none 1 ("a")

def c6Reg : ServerState := { ownS with thread_channels := [(0, [])] }

def c6Add : ServerState :=
  { c6Reg with connections := [(7, exConn7)], queue := [ThreadMessage.Listen exConn7] }

def c6Claim : ServerState := { c6Add with channels := [(7, 0)], queue := [] }

def c6Removed : ServerState :=
  { c6Claim with connections := [], channels := [], thread_channels := [(0, [Message.Exit])] }

/- baseS (max_peers 1) after one and after two unguarded add_connection calls. -/
def c2S1 : ServerState :=
  { baseS with connections := [(1, exConn1)], queue := [ThreadMessage.Listen exConn1] }

def c2S2 : ServerState :=
  { baseS with
    connections := [(1, exConn1), (2, exConn2)],
    queue := [ThreadMessage.Listen exConn1, ThreadMessage.Listen exConn2] }

theorem stReg_reachable : Reachable stReg := by
  have h0 : Reachable baseS := Reachable.init 0 none 1 ("a")
  exact Reachable.base h0 (BaseStep.register 0 (by decide) rfl)

theorem stAdd_reachable : Reachable stAdd :=
  Reachable.add exConn1 stReg_reachable (by decide)

theorem stClaim_reachable : Reachable stClaim :=
  Reachable.base stAdd_reachable (BaseStep.claim 0 exConn1 [] rfl (by decide))

theorem stBadClaim_reachable : Reachable stBadClaim := by
  have h1 : Reachable stBadAdd := Reachable.add exConnBad stReg_reachable (by decide)
  exact Reachable.base h1 (BaseStep.claim 0 exConnBad [] rfl (by decide))

theorem stBadRemoved_reachable : Reachable stBadRemoved :=
  Reachable.base stBadClaim_reachable
    (BaseStep.removeErr 1
      (P2pError.OnConnectionClose ("trying to remove " ++ Nat.repr 1 ++ ": close failed"))
      (by decide))

theorem c6Claim_reachable : Reachable c6Claim := by
  have h0 : Reachable ownS := Reachable.init 7 none 1 ("a")
  have h1 : Reachable c6Reg := Reachable.base h0 (BaseStep.register 0 (by decide) rfl)
  have h2 : Reachable c6Add := Reachable.add exConn7 h1 (by decide)
  exact Reachable.base h2 (BaseStep.claim 0 exConn7 [] rfl (by decide))

theorem c2S2_reachable : Reachable c2S2 := by
  have h0 : Reachable baseS := Reachable.init 0 none 1 ("a")
  have h1 : Reachable c2S1 := Reachable.add exConn1 h0 (by decide)
  exact Reachable.add exConn2 h1 (by decide)

theorem c2S1_greach : GReach c2S1 := by
  have h0 : GReach baseS := GReach.init 0 none 1 ("a")
  exact GReach.add exConn1 h0 (by decide) (by decide)

/- ### Claim theorems -/

/-- C1: in every reachable server state, add_connection with a connection whose
peer id already has a live Registry entry panics (a fatal condition, not a
routine typed error), and the Registry of a reachable state never holds two
live entries for the same peer id. -/
theorem C1_duplicate_fatal_and_unique (st : ServerState) (h : Reachable st) :
    (∀ connection old, lookupA connection.peer_id st.connections = some old →
      add_connection st connection =
        Outcome.fatal ("Connection " ++ Nat.repr connection.peer_id ++ " already exists!")) ∧
    (st.connections.map Prod.fst).Nodup := by
  refine ⟨?_, (reachable_wf h).conn_nodup⟩
  intro connection old hmem
  unfold add_connection
  rw [hmem]

/-- Witness for C1 at the reachable state c2S1, which already holds peer id 1. -/
theorem C1_witness :
    add_connection c2S1 exConn1 =
      Outcome.fatal ("Connection " ++ Nat.repr exConn1.peer_id ++ " already exists!") ∧
    (c2S1.connections.map Prod.fst).Nodup := by
  have h0 : Reachable c2S1 :=
    Reachable.add exConn1 (Reachable.init 0 none 1 ("a")) (by decide)
  have h := C1_duplicate_fatal_and_unique c2S1 h0
  exact ⟨h.1 exConn1 exConn1 (by decide), h.2⟩

/-- C2 counterexample: add_connection enforces no capacity bound, so with
max_peers = 1 two plain add_connection calls reach a state where
peer_count > max_peers, accept_new_connections() is false while
get_peer_count() differs from max_peers, and get_slots_available() is not
max_peers − peer_count. -/
theorem C2_counterexample :
    Reachable c2S2 ∧
    ¬ get_peer_count c2S2 ≤ c2S2.max_peers ∧
    ¬ ((accept_new_connections c2S2 = false) ↔ get_peer_count c2S2 = c2S2.max_peers) ∧
    get_slots_available c2S2 ≠ c2S2.max_peers - get_peer_count c2S2 := by
  refine ⟨c2S2_reachable, by decide, by decide, by decide⟩

/-- C2 (amended): along every execution in which add_connection is only called
in states where accept_new_connections() is true (the listener's admission
discipline), peer_count ≤ max_peers holds in every reachable state,
accept_new_connections() is false exactly when peer_count = max_peers, and
get_slots_available() equals max_peers − peer_count (in particular it never
underflows). -/
theorem C2_guarded_invariants (st : ServerState) (h : GReach st) :
    get_peer_count st ≤ st.max_peers ∧
    ((accept_new_connections st = false) ↔ get_peer_count st = st.max_peers) ∧
    get_slots_available st = st.max_peers - get_peer_count st := by
  have hc := greach_count h
  refine ⟨hc, ?_, ?_⟩
  · unfold accept_new_connections
    unfold get_peer_count at hc ⊢
    constructor
    · intro hfalse
      simp only [decide_eq_false_iff_not, not_lt] at hfalse
      omega
    · intro heq
      simp only [decide_eq_false_iff_not, not_lt]
      omega
  · unfold get_slots_available usizeSub
    have hc2 : get_peer_count st ≤ st.max_peers := hc
    rw [if_pos hc2]

/-- Witness for C2 (amended) at the guarded-reachable state c2S1. -/
theorem C2_witness :
    get_peer_count c2S1 ≤ c2S1.max_peers ∧
    ((accept_new_connections c2S1 = false) ↔ get_peer_count c2S1 = c2S1.max_peers) ∧
    get_slots_available c2S1 = c2S1.max_peers - get_peer_count c2S1 :=
  C2_guarded_invariants c2S1 c2S1_greach

/-- C5: remove_connection on a peer id absent from the Registry returns the
PeerNotFound error and leaves the entire server state — Registry,
WorkerAssignment, WorkerChannelTable and DispatchQueue — unchanged. -/
theorem C5_remove_absent (st : ServerState) (pid : Nat)
    (h : lookupA pid st.connections = none) :
    remove_connection st pid = Outcome.err (P2pError.PeerNotFound pid) st := by
  unfold remove_connection
  rw [h]

/-- Witness for C5: removing the absent peer 5 from the reachable state stClaim. -/
theorem C5_witness :
    remove_connection stClaim 5 = Outcome.err (P2pError.PeerNotFound 5) stClaim :=
  C5_remove_absent stClaim 5 (by decide)

/-- C9: is_connected_to returns Ok(true) for the server's own peer id even when
no such Registry entry exists, and for every other peer id it returns Ok of
exactly the Registry membership test. -/
theorem C9_is_connected_to_self (st : ServerState) (pid : Nat) :
    (pid = st.peer_id → is_connected_to st pid = Except.ok true) ∧
    (pid ≠ st.peer_id →
      is_connected_to st pid = Except.ok ((lookupA pid st.connections).isSome)) := by
  constructor
  · intro h
    subst h
    simp [is_connected_to]
  · intro h
    simp [is_connected_to, Ne.symm h]

/-- Witness for C9 at baseS (own peer id 0, empty Registry): own id reports
connected, the absent id 5 does not. -/
theorem C9_witness :
    is_connected_to baseS 0 = Except.ok true ∧
    is_connected_to baseS 5 = Except.ok false := by
  constructor
  · exact (C9_is_connected_to_self baseS 0).1 rfl
  · exact (C9_is_connected_to_self baseS 5).2 (by decide)

/-- C4 counterexample: after a removal whose transport close failed, peer 1 is
absent from the Registry but still recorded in WorkerAssignment, and
send_to_peer(1, [42]) succeeds (forwarding SendBytes to worker 0) instead of
failing with peer not found, refuting the claim for ids absent from the
Registry. -/
theorem C4_counterexample :
    Reachable stBadRemoved ∧
    lookupA 1 stBadRemoved.connections = none ∧
    lookupA 1 stBadRemoved.channels = some 0 ∧
    send_to_peer stBadRemoved 1 [42] = Outcome.ok () c4Post := by
  refine ⟨stBadRemoved_reachable, rfl, rfl, by decide⟩

/-- C4 (amended): send_to_peer is resolved through WorkerAssignment alone —
for every peer id without a WorkerAssignment entry (whether or not the
Registry holds it) it fails with PeerNotFound and leaves the state unchanged,
performing no write; for every peer id with a WorkerAssignment entry (in a
reachable state, even one whose Registry entry is already gone after a failed
close) it appends exactly one SendBytes message carrying exactly the given
bytes to the inbox of the recorded worker. -/
theorem C4_send_resolution (st : ServerState) (h : Reachable st) (pid : Nat)
    (bytes : List Nat) :
    (lookupA pid st.channels = none →
      send_to_peer st pid bytes = Outcome.err (P2pError.PeerNotFound pid) st) ∧
    (∀ thread_id, lookupA pid st.channels = some thread_id →
      ∃ inbox, lookupA thread_id st.thread_channels = some inbox ∧
        send_to_peer st pid bytes = Outcome.ok () { st with
          thread_channels :=
            insertA thread_id (inbox ++ [Message.SendBytes bytes]) st.thread_channels }) := by
  constructor
  · intro hn
    simp [send_to_peer, hn]
  · intro thread_id ha
    have hin := (reachable_wf h).assigned_inbox (pid, thread_id) (lookupA_mem ha)
    rcases Option.isSome_iff_exists.mp hin with ⟨inbox, ht⟩
    refine ⟨inbox, ht, ?_⟩
    simp [send_to_peer, ha, ht]

/-- Witness for C4 (amended) at the reachable state stClaim: the unassigned id 5
fails with PeerNotFound, the assigned id 1 enqueues its bytes at worker 0. -/
theorem C4_witness :
    send_to_peer stClaim 5 [2, 3] = Outcome.err (P2pError.PeerNotFound 5) stClaim ∧
    (∃ inbox, lookupA 0 stClaim.thread_channels = some inbox ∧
      send_to_peer stClaim 1 [2, 3] = Outcome.ok () { stClaim with
        thread_channels :=
          insertA 0 (inbox ++ [Message.SendBytes [2, 3]]) stClaim.thread_channels }) := by
  constructor
  · exact (C4_send_resolution stClaim stClaim_reachable 5 [2, 3]).1 (by decide)
  · exact (C4_send_resolution stClaim stClaim_reachable 1 [2, 3]).2 0 (by decide)

/-- C6 counterexample: a connection carrying the server's own peer id 7 is
present in the Registry of the reachable state c6Claim; remove_connection(7)
returns successfully, yet is_connected_to(7) still answers Ok(true) afterwards
because is_connected_to short-circuits on the server's own id. -/
theorem C6_counterexample :
    Reachable c6Claim ∧
    lookupA 7 c6Claim.connections = some exConn7 ∧
    remove_connection c6Claim 7 = Outcome.ok () c6Removed ∧
    is_connected_to c6Removed 7 = Except.ok true := by
  refine ⟨c6Claim_reachable, rfl, by decide, rfl⟩

/-- C6 (amended): for every peer id present in the Registry and different from
the server's own peer id, once remove_connection(id) returns (successfully or
with a typed error), is_connected_to(id) answers Ok(false) and
get_connection(id) fails with PeerNotFound. -/
theorem C6_remove_present (st st' : ServerState) (pid : Nat)
    (hmem : (lookupA pid st.connections).isSome)
    (hne : pid ≠ st.peer_id)
    (hret : remove_connection st pid = Outcome.ok () st' ∨
      ∃ e, remove_connection st pid = Outcome.err e st') :
    is_connected_to st' pid = Except.ok false ∧
    get_connection st' pid = Except.error (P2pError.PeerNotFound pid) := by
  have hpost : lookupA pid st'.connections = none ∧ st'.peer_id = st.peer_id := by
    rcases hret with hok | ⟨e, herr⟩
    · rcases remove_connection_post_ok hok with ⟨c, tid, inbox, _, _, _, hst⟩
      subst hst
      exact ⟨lookupA_removeA_self _ _, rfl⟩
    · rcases remove_connection_post_err herr with ⟨_, hst, hnone⟩ | ⟨c, _, _, _, _, hst⟩
      · subst hst
        rw [hnone] at hmem
        cases hmem
      · subst hst
        exact ⟨lookupA_removeA_self _ _, rfl⟩
  have hne2 : ¬ st'.peer_id = pid := by
    rw [hpost.2]
    exact Ne.symm hne
  constructor
  · simp [is_connected_to, hne2, hpost.1]
  · simp [get_connection, hpost.1]

/-- Witness for C6 (amended): removing peer 1 (distinct from the server's own
id 0) from the reachable state stClaim. -/
theorem C6_witness :
    is_connected_to stRemoved 1 = Except.ok false ∧
    get_connection stRemoved 1 = Except.error (P2pError.PeerNotFound 1) :=
  C6_remove_present stClaim stRemoved 1 (by decide) (by decide) (Or.inl (by decide))

/-- C7 counterexample: in the reachable state stBadClaim the transport close of
peer 1 fails during remove_connection; the operation reports the close failure
as its result (OnConnectionClose), the WorkerAssignment entry survives, and no
Exit message reaches worker 0's inbox — refuting "only logged, removal still
completed". -/
theorem C7_counterexample :
    Reachable stBadClaim ∧
    remove_connection stBadClaim 1 =
      Outcome.err
        (P2pError.OnConnectionClose ("trying to remove " ++ Nat.repr 1 ++ ": close failed"))
        stBadRemoved ∧
    lookupA 1 stBadRemoved.channels = some 0 ∧
    lookupA 0 stBadRemoved.thread_channels = some [] := by
  refine ⟨stBadClaim_reachable, by decide, rfl, rfl⟩

/-- C7 (amended): when the transport close of a present, not-yet-closed
connection fails, remove_connection removes the Registry entry but returns the
OnConnectionClose error as its result and stops: the WorkerAssignment entry is
kept, the worker inboxes are untouched, and no Exit is sent. -/
theorem C7_close_failure (st : ServerState) (pid : Nat) (connection : Connection)
    (hmem : lookupA pid st.connections = some connection)
    (hopen : connection.closed = false) (hfail : connection.close_ok = false) :
    remove_connection st pid =
      Outcome.err
        (P2pError.OnConnectionClose ("trying to remove " ++ Nat.repr pid ++ ": close failed"))
        { st with connections := removeA pid st.connections } := by
  simp [remove_connection, hmem, hopen, hfail]

/-- Witness for C7 (amended) at stBadClaim. -/
theorem C7_witness :
    remove_connection stBadClaim 1 =
      Outcome.err
        (P2pError.OnConnectionClose ("trying to remove " ++ Nat.repr 1 ++ ": close failed"))
        { stBadClaim with connections := removeA 1 stBadClaim.connections } :=
  C7_close_failure stBadClaim 1 exConnBad (by decide) rfl rfl

/- ### stop(): best-effort removal loop analysis -/

theorem lookupA_eq_none {κ α : Type} [DecidableEq κ] {k : κ} {l : List (κ × α)}
    (h : k ∉ l.map Prod.fst) : lookupA k l = none := by
  induction l with
  | nil => rfl
  | cons p l ih =>
    simp only [List.map_cons, List.mem_cons] at h
    push_neg at h
    have hp : p.1 ≠ k := fun hk => h.1 hk.symm
    simp only [lookupA, if_neg hp]
    exact ih h.2

theorem get_connections_id_eq_keys {st : ServerState}
    (hkv : ∀ p ∈ st.connections, p.2.peer_id = p.1) :
    get_connections_id st = st.connections.map Prod.fst := by
  unfold get_connections_id
  exact List.map_congr_left hkv

/-
Removing every snapshotted key in order, when every connection is claimed by
a worker whose inbox is registered, never panics, empties the Registry and
leaves the dispatch queue, max_peers and own peer id unchanged.
-/
theorem removeAll_claimed : ∀ (pids : List Nat) (st : ServerState),
    st.connections.map Prod.fst = pids →
    (st.connections.map Prod.fst).Nodup →
    (∀ p ∈ st.connections, (lookupA p.1 st.channels).isSome) →
    (∀ p ∈ st.channels, (lookupA p.2 st.thread_channels).isSome) →
    ∃ st', removeAll st pids = some st' ∧ st'.connections = [] ∧
      st'.queue = st.queue ∧ st'.max_peers = st.max_peers := by
  intro pids
  induction pids with
  | nil =>
    intro st hkeys _ _ _
    have hconn : st.connections = [] := by
      cases hc : st.connections with
      | nil => rfl
      | cons p l => rw [hc] at hkeys; cases hkeys
    exact ⟨st, rfl, hconn, rfl, rfl⟩
  | cons pid rest ih =>
    intro st hkeys hnodup hclaimed hinbox
    cases hc : st.connections with
    | nil => rw [hc] at hkeys; cases hkeys
    | cons q tail =>
      rw [hc] at hkeys
      simp only [List.map_cons, List.cons.injEq] at hkeys
      rcases hkeys with ⟨hq1, htail⟩
      rw [hc] at hnodup
      simp only [List.map_cons, List.nodup_cons] at hnodup
      have htailnone : lookupA pid tail = none := by
        apply lookupA_eq_none
        rw [← hq1]
        exact hnodup.1
      have hlook : lookupA pid st.connections = some q.2 := by
        rw [hc]
        simp [lookupA, hq1]
      have hclq : (lookupA pid st.channels).isSome := by
        have := hclaimed q (by rw [hc]; exact List.mem_cons_self _ _)
        rw [hq1] at this
        exact this
      rcases Option.isSome_iff_exists.mp hclq with ⟨thread_id, hcl⟩
      have hremconn : removeA pid st.connections = tail := by
        rw [hc, ← hq1]
        have : q = (q.1, q.2) := rfl
        rw [this, hq1]
        exact removeA_cons_head pid q.2 tail htailnone
      by_cases hclose : (!q.2.closed && !q.2.close_ok) = true
      · -- close failure path: typed error, registry entry removed, loop continues
        have hrem : remove_connection st pid =
            Outcome.err
              (P2pError.OnConnectionClose
                ("trying to remove " ++ Nat.repr pid ++ ": close failed"))
              { st with connections := removeA pid st.connections } := by
          simp only [remove_connection, hlook]
          rw [if_pos hclose]
        rcases ih { st with connections := removeA pid st.connections }
            (by simpa [hremconn] using htail)
            (by simpa [hremconn] using hnodup.2)
            (by intro p hp
                rw [hremconn] at hp
                exact hclaimed p (by rw [hc]; exact List.mem_cons_of_mem _ hp))
            hinbox with ⟨st', hra, h1, h2, h3⟩
        refine ⟨st', ?_, h1, h2, h3⟩
        unfold removeAll
        rw [hrem]
        exact hra
      · -- successful removal path: Exit is pushed to the owning worker
        have hibq : (lookupA thread_id st.thread_channels).isSome :=
          hinbox (pid, thread_id) (lookupA_mem hcl)
        rcases Option.isSome_iff_exists.mp hibq with ⟨inbox, hib⟩
        have hrem : remove_connection st pid =
            Outcome.ok () { st with
              connections := removeA pid st.connections,
              channels := removeA pid st.channels,
              thread_channels :=
                insertA thread_id (inbox ++ [Message.Exit]) st.thread_channels } := by
          simp only [remove_connection, hlook]
          rw [if_neg hclose]
          simp only [hcl, hib]
        rcases ih { st with
              connections := removeA pid st.connections,
              channels := removeA pid st.channels,
              thread_channels :=
                insertA thread_id (inbox ++ [Message.Exit]) st.thread_channels }
            (by simpa [hremconn] using htail)
            (by simpa [hremconn] using hnodup.2)
            (by intro p hp
                rw [hremconn] at hp
                have hmem : p ∈ st.connections := by rw [hc]; exact List.mem_cons_of_mem _ hp
                have hkey : p.1 ≠ pid := by
                  intro hk
                  have : p.1 ∈ tail.map Prod.fst := List.mem_map_of_mem Prod.fst hp
                  rw [hk, htail] at this
                  rw [htail, hq1] at hnodup
                  exact hnodup.1 this
                have := hclaimed p hmem
                rw [← lookupA_removeA_ne st.channels hkey] at this
                exact this)
            (by intro p hp
                have := hinbox p (mem_removeA hp).1
                exact isSome_lookupA_insertA _ _ this) with ⟨st', hra, h1, h2, h3⟩
        refine ⟨st', ?_, h1, h2, h3⟩
        unfold removeAll
        rw [hrem]
        exact hra

/-- C3 counterexample: in the reachable state stAdd a connection was registered
but no worker has claimed it yet, so its WorkerAssignment entry is missing;
stop() then panics inside remove_connection (no channel found) and never
pushes any Shutdown event, refuting the claim for every server state. -/
theorem C3_counterexample :
    Reachable stAdd ∧
    lookupA 1 stAdd.connections = some exConn1 ∧
    lookupA 1 stAdd.channels = none ∧
    stop stAdd = none := by
  refine ⟨stAdd_reachable, rfl, rfl, rfl⟩

/-- C3 (amended): in every reachable state in which each Registry peer id has a
WorkerAssignment entry, stop() snapshots the peer ids, removes every one of
them best-effort (typed errors logged, not propagated), emptying the Registry,
and afterwards pushes exactly max_peers Shutdown events onto the DispatchQueue,
in that order. -/
theorem C3_stop_all_claimed (st : ServerState) (h : Reachable st)
    (hclaimed : ∀ p ∈ st.connections, (lookupA p.1 st.channels).isSome) :
    ∃ st', stop st = some st' ∧ st'.connections = [] ∧
      st'.queue = st.queue ++ List.replicate st.max_peers ThreadMessage.Stop := by
  have hwf := reachable_wf h
  rcases removeAll_claimed (st.connections.map Prod.fst) st rfl hwf.conn_nodup
      hclaimed hwf.assigned_inbox with ⟨st1, hra, h1, h2, h3⟩
  refine ⟨{ st1 with queue := st1.queue ++ List.replicate st1.max_peers ThreadMessage.Stop },
    ?_, h1, ?_⟩
  · unfold stop
    rw [get_connections_id_eq_keys hwf.conn_kv, hra]
  · rw [h2, h3]

/-- Witness for C3 (amended) at the reachable, fully claimed state stClaim
(one connection, max_peers 1). -/
theorem C3_witness :
    ∃ st', stop stClaim = some st' ∧ st'.connections = [] ∧
      st'.queue = stClaim.queue ++ List.replicate stClaim.max_peers ThreadMessage.Stop :=
  C3_stop_all_claimed stClaim stClaim_reachable (by decide)

/- ### Lock-trace analysis per operation -/

theorem add_locks_spec (st : ServerState) (c : Connection) :
    orderedAux [] (add_connection_locks st c) = true ∧
    maxHeldAux [] (add_connection_locks st c) ≤ 3 := by
  cases hc : lookupA c.peer_id st.connections with
  | none =>
    simp only [add_connection_locks, hc]
    exact ⟨by decide, by decide⟩
  | some old =>
    simp only [add_connection_locks, hc]
    exact ⟨by decide, by decide⟩

theorem send_locks_spec (st : ServerState) (pid : Nat) :
    orderedAux [] (send_to_peer_locks st pid) = true ∧
    maxHeldAux [] (send_to_peer_locks st pid) ≤ 3 := by
  cases ha : lookupA pid st.channels with
  | none =>
    simp only [send_to_peer_locks, ha]
    exact ⟨by decide, by decide⟩
  | some thread_id =>
    cases ht : lookupA thread_id st.thread_channels with
    | none =>
      simp only [send_to_peer_locks, ha, ht]
      exact ⟨by decide, by decide⟩
    | some inbox =>
      simp only [send_to_peer_locks, ha, ht]
      exact ⟨by decide, by decide⟩

theorem remove_locks_spec (st : ServerState) (pid : Nat) :
    orderedAux [] (remove_connection_locks st pid) = true ∧
    maxHeldAux [] (remove_connection_locks st pid) ≤ 3 := by
  cases hc : lookupA pid st.connections with
  | none =>
    simp only [remove_connection_locks, hc]
    exact ⟨by decide, by decide⟩
  | some connection =>
    by_cases hcl : (!connection.closed && !connection.close_ok) = true
    · simp only [remove_connection_locks, hc]
      rw [if_pos hcl]
      exact ⟨by decide, by decide⟩
    · cases ha : lookupA pid st.channels with
      | none =>
        simp only [remove_connection_locks, hc, ha]
        rw [if_neg hcl]
        exact ⟨by decide, by decide⟩
      | some thread_id =>
        cases ht : lookupA thread_id st.thread_channels with
        | none =>
          simp only [remove_connection_locks, hc, ha, ht]
          rw [if_neg hcl]
          exact ⟨by decide, by decide⟩
        | some inbox =>
          simp only [remove_connection_locks, hc, ha, ht]
          rw [if_neg hcl]
          exact ⟨by decide, by decide⟩

/- A removal that does not panic releases every guard it acquired. -/
theorem remove_locks_heldAfter_of_not_fatal (st : ServerState) (pid : Nat)
    (h : ∀ m, remove_connection st pid ≠ Outcome.fatal m) :
    heldAfter [] (remove_connection_locks st pid) = [] := by
  cases hc : lookupA pid st.connections with
  | none =>
    simp only [remove_connection_locks, hc]
    rfl
  | some connection =>
    by_cases hcl : (!connection.closed && !connection.close_ok) = true
    · simp only [remove_connection_locks, hc]
      rw [if_pos hcl]
      rfl
    · cases ha : lookupA pid st.channels with
      | none =>
        exfalso
        exact h "No channel found for a connection found!"
          (by simp [remove_connection, hc, hcl, ha])
      | some thread_id =>
        cases ht : lookupA thread_id st.thread_channels with
        | none =>
          exfalso
          exact h ("No thread found for id " ++ Nat.repr thread_id)
            (by simp [remove_connection, hc, hcl, ha, ht])
        | some inbox =>
          simp only [remove_connection_locks, hc, ha, ht]
          rw [if_neg hcl]
          rfl

theorem removeAll_locks_spec : ∀ (pids : List Nat) (st : ServerState),
    orderedAux [] (removeAll_locks st pids) = true ∧
    maxHeldAux [] (removeAll_locks st pids) ≤ 3 := by
  intro pids
  induction pids with
  | nil =>
    intro st
    constructor
    · rfl
    · show maxHeldAux [] ([] : List LockEvent) ≤ 3
      decide
  | cons pid rest ih =>
    intro st
    cases hr : remove_connection st pid with
    | ok u st1 =>
      cases u
      have hheld : heldAfter [] (remove_connection_locks st pid) = [] :=
        remove_locks_heldAfter_of_not_fatal st pid (fun m hm => by rw [hr] at hm; cases hm)
      have hord := remove_locks_spec st pid
      constructor
      · simp only [removeAll_locks, hr]
        rw [orderedAux_append, hheld, hord.1, (ih st1).1]
        rfl
      · simp only [removeAll_locks, hr]
        have hle := maxHeldAux_append_le [] (remove_connection_locks st pid)
          (removeAll_locks st1 rest)
        rw [hheld] at hle
        have h2 := (ih st1).2
        have h3 := hord.2
        omega
    | err e st1 =>
      have hheld : heldAfter [] (remove_connection_locks st pid) = [] :=
        remove_locks_heldAfter_of_not_fatal st pid (fun m hm => by rw [hr] at hm; cases hm)
      have hord := remove_locks_spec st pid
      constructor
      · simp only [removeAll_locks, hr]
        rw [orderedAux_append, hheld, hord.1, (ih st1).1]
        rfl
      · simp only [removeAll_locks, hr]
        have hle := maxHeldAux_append_le [] (remove_connection_locks st pid)
          (removeAll_locks st1 rest)
        rw [hheld] at hle
        have h2 := (ih st1).2
        have h3 := hord.2
        omega
    | fatal m =>
      simp only [removeAll_locks, hr, List.append_nil]
      exact remove_locks_spec st pid

theorem removeAll_locks_heldAfter : ∀ (pids : List Nat) (st st' : ServerState),
    removeAll st pids = some st' →
    heldAfter [] (removeAll_locks st pids) = [] := by
  intro pids
  induction pids with
  | nil =>
    intro st st' h
    rfl
  | cons pid rest ih =>
    intro st st' h
    unfold removeAll at h
    cases hr : remove_connection st pid with
    | ok u st1 =>
      cases u
      rw [hr] at h
      have hheld : heldAfter [] (remove_connection_locks st pid) = [] :=
        remove_locks_heldAfter_of_not_fatal st pid (fun m hm => by rw [hr] at hm; cases hm)
      simp only [removeAll_locks, hr]
      rw [heldAfter_append, hheld]
      exact ih st1 st' h
    | err e st1 =>
      rw [hr] at h
      have hheld : heldAfter [] (remove_connection_locks st pid) = [] :=
        remove_locks_heldAfter_of_not_fatal st pid (fun m hm => by rw [hr] at hm; cases hm)
      simp only [removeAll_locks, hr]
      rw [heldAfter_append, hheld]
      exact ih st1 st' h
    | fatal m =>
      rw [hr] at h
      cases h

theorem stop_locks_spec (st : ServerState) :
    orderedAux [] (stop_locks st) = true ∧ maxHeldAux [] (stop_locks st) ≤ 3 := by
  have hq_ord : orderedAux [] query_locks = true := by decide
  have hq_held : heldAfter [] query_locks = [] := by decide
  have hq_max : maxHeldAux [] query_locks = 1 := by decide
  have hra := removeAll_locks_spec (get_connections_id st) st
  cases hr : removeAll st (get_connections_id st) with
  | none =>
    simp only [stop_locks, hr, List.append_nil]
    constructor
    · rw [orderedAux_append, hq_held, hq_ord, hra.1]
      rfl
    · have hle := maxHeldAux_append_le [] query_locks
        (removeAll_locks st (get_connections_id st))
      rw [hq_held] at hle
      have h2 := hra.2
      omega
  | some st1 =>
    have hra_held := removeAll_locks_heldAfter (get_connections_id st) st st1 hr
    simp only [stop_locks, hr]
    constructor
    · rw [orderedAux_append, orderedAux_append, heldAfter_append, hq_held, hra_held,
        hq_ord, hra.1]
      rfl
    · have hle1 := maxHeldAux_append_le []
        (query_locks ++ removeAll_locks st (get_connections_id st))
        [LockEvent.acq Guard.dispatch, LockEvent.rel Guard.dispatch]
      have hle2 := maxHeldAux_append_le [] query_locks
        (removeAll_locks st (get_connections_id st))
      rw [heldAfter_append, hq_held, hra_held] at hle1
      rw [hq_held] at hle2
      have h2 := hra.2
      have h3 : maxHeldAux ([] : List Guard)
          [LockEvent.acq Guard.dispatch, LockEvent.rel Guard.dispatch] = 1 := by decide
      omega

/-- C8 counterexample: already on a freshly constructed (reachable) server,
add_connection acquires the DispatchQueue sender guard while still holding
the Registry guard, so its trace holds two guards simultaneously, refuting
the claim that no operation ever holds more than one guard. -/
theorem C8_counterexample :
    Reachable baseS ∧ maxHeld (add_connection_locks baseS exConn1) = 2 := by
  constructor
  · exact Reachable.init 0 none 1 ("a")
  · decide

/-- C8 (amended): the facade operations do hold several guards at once —
add_connection nests the DispatchQueue sender guard inside the Registry
guard, remove_connection nests WorkerAssignment and WorkerChannelTable inside
the Registry guard (up to three at once), send_to_peer nests
WorkerChannelTable inside WorkerAssignment — but every operation acquires its
guards in the fixed global order Registry ≺ WorkerAssignment ≺
WorkerChannelTable ≺ DispatchQueue and holds at most three, so no
lock-ordering cycle exists. -/
theorem C8_lock_order :
    (∀ st c, orderedTrace (add_connection_locks st c) = true ∧
      maxHeld (add_connection_locks st c) ≤ 3) ∧
    (∀ st pid, orderedTrace (remove_connection_locks st pid) = true ∧
      maxHeld (remove_connection_locks st pid) ≤ 3) ∧
    (∀ st pid, orderedTrace (send_to_peer_locks st pid) = true ∧
      maxHeld (send_to_peer_locks st pid) ≤ 3) ∧
    (∀ st, orderedTrace (stop_locks st) = true ∧ maxHeld (stop_locks st) ≤ 3) ∧
    (orderedTrace query_locks = true ∧ maxHeld query_locks ≤ 3) :=
  ⟨add_locks_spec, remove_locks_spec, send_locks_spec, stop_locks_spec, by decide, by decide⟩

/- ### Prompt command dispatcher (xelis_common/src/prompt/command.rs) -/

/-
Argument values and conversion errors live in prompt/argument.rs, outside
the reviewed core; the embedding keeps conversion abstract: ArgValue is an
arbitrary converted value and each Arg carries its own fallible conversion
function (arg.get_type().to_value in the source).
-/
structure ArgError where
  msg : String
deriving DecidableEq

inductive ArgValue where
  | str (s : String)
  | num (n : Nat)
  | boolean (b : Bool)
deriving DecidableEq

/- enum CommandError of command.rs. -/
inductive CommandError where
  | ExpectedCommandName
  | CommandNotFound
  | ExpectedRequiredArg (name : String)
  | TooManyArguments
  | ArgError (e : ArgError)
  | InvalidArgument (s : String)
  | Exit
  | NoData
  | NoPrompt
deriving DecidableEq

structure Arg where
  name : String
  toValue : String → Except ArgError ArgValue

structure Command where
  name : String
  description : String
  required_args : List Arg
  optional_args : List Arg

/- Rust str::split_whitespace on the character list, accumulator reversed. -/
def wsSplitAux : List Char → List Char → List (List Char)
  | [], cur => if cur.isEmpty then [] else [cur.reverse]
  | c :: cs, cur =>
      if c.isWhitespace then
        if cur.isEmpty then wsSplitAux cs []
        else cur.reverse :: wsSplitAux cs []
      else wsSplitAux cs (c :: cur)

def tokensOf (value : String) : List String :=
  (wsSplitAux value.toList []).map List.asString

/- fn get_command: first registered command with the given name. -/
def get_command (manager : List Command) (nm : String) : Option Command :=
  manager.find? (fun command => command.name == nm)

/-
The loop over command.get_required_args(): each required argument consumes
the next token and converts it; a missing token reports that argument's
name, a conversion failure propagates as ArgError.
-/
def parseRequired : List Arg → List String → List (String × ArgValue) →
    Except CommandError (List (String × ArgValue) × List String)
  | [], toks, arguments => Except.ok (arguments, toks)
  | arg :: _, [], _ => Except.error (CommandError.ExpectedRequiredArg arg.name)
  | arg :: args, tok :: toks, arguments =>
      match arg.toValue tok with
      | Except.error e => Except.error (CommandError.ArgError e)
      | Except.ok v => parseRequired args toks (insertA arg.name v arguments)

/-
The loop over command.get_optional_args(): optional arguments consume
tokens while any remain, stopping (break) at the first missing token.
-/
def parseOptional : List Arg → List String → List (String × ArgValue) →
    Except CommandError (List (String × ArgValue) × List String)
  | [], toks, arguments => Except.ok (arguments, toks)
  | _ :: _, [], arguments => Except.ok (arguments, [])
  | arg :: args, tok :: toks, arguments =>
      match arg.toValue tok with
      | Except.error e => Except.error (CommandError.ArgError e)
      | Except.ok v => parseOptional args toks (insertA arg.name v arguments)

/-
fn handle_command, up to the final command.execute call (the callback is an
external collaborator): successful parsing returns the dispatched command
name together with the collected argument map.
-/
def handle_command (manager : List Command) (value : String) :
    Except CommandError (String × List (String × ArgValue)) :=
  match tokensOf value with
  | [] => Except.error CommandError.ExpectedCommandName
  | command_name :: rest =>
      match get_command manager command_name with
      | none => Except.error CommandError.CommandNotFound
      | some command =>
          match parseRequired command.required_args rest [] with
          | Except.error e => Except.error e
          | Except.ok (arguments, rest1) =>
              match parseOptional command.optional_args rest1 arguments with
              | Except.error e => Except.error e
              | Except.ok (arguments2, rest2) =>
                  if rest2.isEmpty then Except.ok (command.name, arguments2)
                  else Except.error CommandError.TooManyArguments

/- Every consumed token converts successfully under its argument's type. -/
def convertsOk (args : List Arg) (toks : List String) : Prop :=
  ∀ pr ∈ args.zip toks, ∃ v, pr.1.toValue pr.2 = Except.ok v

theorem parseRequired_short : ∀ (args : List Arg) (toks : List String)
    (arguments : List (String × ArgValue)) (h : toks.length < args.length),
    convertsOk args toks →
    parseRequired args toks arguments =
      Except.error (CommandError.ExpectedRequiredArg (args.get ⟨toks.length, h⟩).name) := by
  intro args
  induction args with
  | nil =>
    intro toks arguments h hconv
    exact absurd h (Nat.not_lt_zero _)
  | cons arg args ih =>
    intro toks arguments h hconv
    cases toks with
    | nil => rfl
    | cons tok toks =>
      rcases hconv (arg, tok) (List.mem_cons_self _ _) with ⟨v, hv⟩
      have hstep : parseRequired (arg :: args) (tok :: toks) arguments =
          parseRequired args toks (insertA arg.name v arguments) := by
        simp only [parseRequired]
        rw [hv]
      rw [hstep]
      have hlen : toks.length < args.length := by
        simpa using h
      exact ih toks (insertA arg.name v arguments) hlen
        (fun pr hpr => hconv pr (List.mem_cons_of_mem _ hpr))

theorem parseRequired_long : ∀ (args : List Arg) (toks : List String)
    (arguments : List (String × ArgValue)), args.length ≤ toks.length →
    convertsOk args toks →
    ∃ arguments2, parseRequired args toks arguments =
      Except.ok (arguments2, toks.drop args.length) := by
  intro args
  induction args with
  | nil =>
    intro toks arguments h hconv
    exact ⟨arguments, rfl⟩
  | cons arg args ih =>
    intro toks arguments h hconv
    cases toks with
    | nil => simp at h
    | cons tok toks =>
      rcases hconv (arg, tok) (List.mem_cons_self _ _) with ⟨v, hv⟩
      have hstep : parseRequired (arg :: args) (tok :: toks) arguments =
          parseRequired args toks (insertA arg.name v arguments) := by
        simp only [parseRequired]
        rw [hv]
      rw [hstep]
      have hlen : args.length ≤ toks.length := by
        simpa using h
      exact ih toks (insertA arg.name v arguments) hlen
        (fun pr hpr => hconv pr (List.mem_cons_of_mem _ hpr))

theorem parseOptional_long : ∀ (args : List Arg) (toks : List String)
    (arguments : List (String × ArgValue)), args.length ≤ toks.length →
    convertsOk args toks →
    ∃ arguments2, parseOptional args toks arguments =
      Except.ok (arguments2, toks.drop args.length) := by
  intro args
  induction args with
  | nil =>
    intro toks arguments h hconv
    exact ⟨arguments, rfl⟩
  | cons arg args ih =>
    intro toks arguments h hconv
    cases toks with
    | nil => simp at h
    | cons tok toks =>
      rcases hconv (arg, tok) (List.mem_cons_self _ _) with ⟨v, hv⟩
      have hstep : parseOptional (arg :: args) (tok :: toks) arguments =
          parseOptional args toks (insertA arg.name v arguments) := by
        simp only [parseOptional]
        rw [hv]
      rw [hstep]
      have hlen : args.length ≤ toks.length := by
        simpa using h
      exact ih toks (insertA arg.name v arguments) hlen
        (fun pr hpr => hconv pr (List.mem_cons_of_mem _ hpr))

/-- C10: handle_command returns ExpectedCommandName on an input with no
non-whitespace token; CommandNotFound when the first token names no registered
command; ExpectedRequiredArg(name) naming the first required argument left
without a token (provided the earlier conversions succeed); and
TooManyArguments when tokens remain after the command name, every required
argument and every optional argument have consumed theirs (provided those
conversions succeed). -/
theorem C10_handle_command (manager : List Command) (value : String) :
    (tokensOf value = [] →
      handle_command manager value = Except.error CommandError.ExpectedCommandName) ∧
    (∀ nm rest, tokensOf value = nm :: rest → get_command manager nm = none →
      handle_command manager value = Except.error CommandError.CommandNotFound) ∧
    (∀ nm rest command, tokensOf value = nm :: rest →
      get_command manager nm = some command →
      ∀ h : rest.length < command.required_args.length,
      convertsOk command.required_args rest →
      handle_command manager value =
        Except.error (CommandError.ExpectedRequiredArg
          (command.required_args.get ⟨rest.length, h⟩).name)) ∧
    (∀ nm rest command, tokensOf value = nm :: rest →
      get_command manager nm = some command →
      command.required_args.length + command.optional_args.length < rest.length →
      convertsOk command.required_args rest →
      convertsOk command.optional_args (rest.drop command.required_args.length) →
      handle_command manager value = Except.error CommandError.TooManyArguments) := by
  refine ⟨?_, ?_, ?_, ?_⟩
  · intro h
    simp only [handle_command, h]
  · intro nm rest h1 h2
    simp only [handle_command, h1, h2]
  · intro nm rest command h1 h2 h hconv
    simp only [handle_command, h1, h2]
    rw [parseRequired_short command.required_args rest [] h hconv]
  · intro nm rest command h1 h2 hlen hc1 hc2
    simp only [handle_command, h1, h2]
    rcases parseRequired_long command.required_args rest [] (by omega) hc1 with
      ⟨arguments1, hreq⟩
    simp only [hreq]
    have hlen2 : command.optional_args.length ≤
        (rest.drop command.required_args.length).length := by
      rw [List.length_drop]
      omega
    rcases parseOptional_long command.optional_args
        (rest.drop command.required_args.length) arguments1 hlen2 hc2 with
      ⟨arguments2, hopt⟩
    simp only [hopt]
    have hne : ¬ ((rest.drop command.required_args.length).drop
        command.optional_args.length).isEmpty = true := by
      intro hE
      have hnil : (rest.drop command.required_args.length).drop
          command.optional_args.length = [] := by
        cases hD : (rest.drop command.required_args.length).drop
            command.optional_args.length with
        | nil => rfl
        | cons x xs =>
          rw [hD] at hE
          cases hE
      have h0 := congrArg List.length hnil
      rw [List.length_drop, List.length_drop] at h0
      simp only [List.length_nil] at h0
      omega
    rw [if_neg hne]

/- The total conversion used by the witness commands. -/
def okString : String → Except ArgError ArgValue :=
  fun s => Except.ok (ArgValue.str s)

theorem convertsOk_of_okString (args : List Arg) (toks : List String)
    (hall : ∀ a ∈ args, a.toValue = okString) : convertsOk args toks := by
  intro pr hpr
  rcases pr with ⟨a, b⟩
  have hmem := List.of_mem_zip hpr
  rw [hall a hmem.1]
  exact ⟨ArgValue.str b, rfl⟩

def argTo : Arg := { name := "to", toValue := okString }

def argAmount : Arg := { name := "amount", toValue := okString }

def argFee : Arg := { name := "fee", toValue := okString }

/- A registered command: transfer <to> <amount> [fee]. -/
def cmdTransfer : Command :=
  { name := "transfer", description := "send funds",
    required_args := [argTo, argAmount], optional_args := [argFee] }

def exCmds : List Command := [cmdTransfer]

theorem cmdTransfer_required_ok : ∀ a ∈ cmdTransfer.required_args, a.toValue = okString := by
  intro a ha
  simp only [cmdTransfer, List.mem_cons, List.not_mem_nil, or_false] at ha
  rcases ha with ha | ha
  · rw [ha]
    rfl
  · rw [ha]
    rfl


theorem cmdTransfer_optional_ok : ∀ a ∈ cmdTransfer.optional_args, a.toValue = okString := by
  intro a ha
  simp only [cmdTransfer, List.mem_cons, List.not_mem_nil, or_false] at ha
  rw [ha]
  rfl

/-- Witness for C10 over the command set [transfer <to> <amount> [fee]]: a
blank line, an unknown command, a missing second required argument, and a
fifth token beyond name + 2 required + 1 optional. -/
theorem C10_witness :
    handle_command exCmds (" ") = Except.error CommandError.ExpectedCommandName ∧
    handle_command exCmds ("status") = Except.error CommandError.CommandNotFound ∧
    handle_command exCmds ("transfer bob") =
      Except.error (CommandError.ExpectedRequiredArg ("amount")) ∧
    handle_command exCmds ("transfer bob 5 1 9") =
      Except.error CommandError.TooManyArguments := by
  refine ⟨?_, ?_, ?_, ?_⟩
  · exact (C10_handle_command exCmds (" ")).1 rfl
  · exact (C10_handle_command exCmds ("status")).2.1 "status" [] rfl rfl
  · exact (C10_handle_command exCmds ("transfer bob")).2.2.1 "transfer" ["bob"]
      cmdTransfer rfl rfl (by decide)
      (convertsOk_of_okString cmdTransfer.required_args ["bob"] cmdTransfer_required_ok)
  · exact (C10_handle_command exCmds ("transfer bob 5 1 9")).2.2.2 "transfer"
      ["bob", "5", "1", "9"] cmdTransfer rfl rfl (by decide)
      (convertsOk_of_okString cmdTransfer.required_args ["bob", "5", "1", "9"]
        cmdTransfer_required_ok)
      (convertsOk_of_okString cmdTransfer.optional_args
        (["bob", "5", "1", "9"].drop cmdTransfer.required_args.length)
        cmdTransfer_optional_ok)
